import Mathlib

/-!
Verification development for the credential & session subsystem of the
blog-style REST backend (src/utils/auth.py, src/utils/pagination.py,
src/utils/query.py, src/routers/users.py).

Modelling conventions:
* Python strings are Lean `String`s; Python ints are `Int`/`Nat` (times are
  seconds since the epoch as `Nat`).
* The external cryptographic primitives (HMAC-SHA256, bcrypt's digest,
  SHA-256 of tokens, HS256 JWT signing) are idealized as free constructions:
  a deterministic keyed digest is a pair of its inputs, and hashes are
  injective.  Only the composition logic written in this repository is
  translated; the primitives themselves live in external libraries.
* `bcrypt.gensalt()` and `uuid4()` randomness is made explicit: salts are
  passed as parameters and session ids are drawn from a fresh counter.
-/

/-- Process-wide configuration (src/config.py).  Only the fields the
credential subsystem reads are modelled; `secret_key` and `password_pepper`
are required settings with no default. -/
structure ModelSettings where
  secret_key : String
  password_pepper : String
  access_token_expire_minutes : Nat
  refresh_token_expire_days : Nat
  cookie_secure : Bool
deriving DecidableEq, Repr

/-- HMAC-SHA256 output, idealized as the free deterministic keyed digest:
two digests are equal iff key and message are equal. -/
structure HmacDigest where
  key : String
  msg : String
deriving DecidableEq, Repr

/-- `_prehash` (src/utils/auth.py lines 18-28): HMAC-SHA256 of the password
keyed with the configured pepper. -/
def prehash (st : ModelSettings) (password : String) : HmacDigest :=
  ⟨st.password_pepper, password⟩

/-- A bcrypt salt (the output of `bcrypt.gensalt()`), idealized by a nonce. -/
structure BSalt where
  nonce : Nat
deriving DecidableEq, Repr

/-- The bcrypt digest over (data, salt), idealized as the free pair. -/
structure BDigest where
  data : HmacDigest
  salt : BSalt
deriving DecidableEq, Repr

/-- A stored credential hash string: either a well-formed bcrypt hash
(embedding its salt and digest) or a string that does not parse under the
bcrypt format. -/
inductive StoredHash where
  | valid (salt : BSalt) (digest : BDigest)
  | malformed (s : String)
deriving DecidableEq, Repr

/-- Python exceptions relevant to the modelled paths. -/
inductive PyError where
  | valueError
deriving DecidableEq, Repr

/-- `bcrypt.hashpw(data, salt)`: produce a well-formed stored hash. -/
def bcrypt_hashpw (data : HmacDigest) (salt : BSalt) : StoredHash :=
  .valid salt ⟨data, salt⟩

/-- `bcrypt.checkpw(data, stored)`: re-derive the digest with the embedded
salt and compare (constant time in the real library); raises `ValueError`
on a hash that does not parse. -/
def bcrypt_checkpw (data : HmacDigest) (stored : StoredHash) : Except PyError Bool :=
  match stored with
  | .valid salt digest => .ok (decide (BDigest.mk data salt = digest))
  | .malformed _ => .error .valueError

/-- `hash_password` (src/utils/auth.py lines 31-33), with the random
`bcrypt.gensalt()` made an explicit parameter. -/
def hash_password (st : ModelSettings) (salt : BSalt) (password : String) : StoredHash :=
  bcrypt_hashpw (prehash st password) salt

/-- `DUMMY_HASH` (src/utils/auth.py line 37): a precomputed hash used to
equalize login work when no account matches. -/
def DUMMY_HASH (st : ModelSettings) (salt : BSalt) : StoredHash :=
  hash_password st salt "dummy_password_for_timing_attack_prevention"

/-- `verify_password` (src/utils/auth.py lines 40-46): recompute the
pre-hash and check with bcrypt; a `ValueError` (malformed stored hash) is
caught and reported as `false`. -/
def verify_password (st : ModelSettings) (plain_password : String)
    (hashed_password : StoredHash) : Bool :=
  match bcrypt_checkpw (prehash st plain_password) hashed_password with
  | .ok b => b
  | .error _ => false

/-- Code points of the password special-character class `SPECIAL_CHARS`
(src/schemas/user.py line 9); 8361 is the won sign. -/
def specialCodes : List Nat :=
  [33, 34, 35, 36, 37, 38, 39, 40, 41, 42, 43, 44, 45, 46, 47,
   58, 59, 60, 61, 62, 63, 64, 91, 8361, 93, 94, 95, 96, 123, 124, 125, 126]

/-- The password policy of `Password` (src/schemas/user.py lines 16-35):
length 8..16 and at least one upper-case letter, lower-case letter, digit
and special character.  The character classes are taken over ASCII as the
regexes use them. -/
def meetsPasswordPolicy (p : String) : Bool :=
  8 ≤ p.length && p.length ≤ 16 &&
  p.data.any (fun c => 'A' ≤ c && c ≤ 'Z') &&
  p.data.any (fun c => 'a' ≤ c && c ≤ 'z') &&
  p.data.any (fun c => '0' ≤ c && c ≤ '9') &&
  p.data.any (fun c => c.toNat ∈ specialCodes)

/-- C5: for every password meeting the policy (and in fact for every
password and every salt drawn by `gensalt`), verifying a password against
its own freshly produced hash succeeds: the HMAC pre-hash with the pepper
followed by the salted bcrypt hash is inverted by the verification path. -/
theorem hash_roundtrip (st : ModelSettings) (salt : BSalt) (p : String)
    (_hp : meetsPasswordPolicy p = true) :
    verify_password st p (hash_password st salt p) = true := by
  simp [verify_password, hash_password, bcrypt_hashpw, bcrypt_checkpw]

/-- C5 witness: the policy-conforming password at a concrete salt and
settings verifies against its own hash. -/
theorem hash_roundtrip_witness :
    verify_password ⟨"sk", "pp", 30, 7, true⟩ "Abcdef1!"
      (hash_password ⟨"sk", "pp", 30, 7, true⟩ ⟨0⟩ "Abcdef1!") = true :=
  hash_roundtrip ⟨"sk", "pp", 30, 7, true⟩ ⟨0⟩ "Abcdef1!" (by decide)

/-- C7: verifying any plaintext against a stored hash that does not parse
under the bcrypt format returns `false` (the `ValueError` is caught inside
`verify_password`) rather than propagating an exception. -/
theorem verify_malformed_hash_false (st : ModelSettings) (p s : String) :
    verify_password st p (StoredHash.malformed s) = false := by
  simp [verify_password, bcrypt_checkpw]

/-! ## Tokens -/

/-- A decoded JWT payload as the code constructs it: the claims dictionary
`{sub, exp}` plus an optional `typ` discriminator, together with the key the
token was signed with (HS256 signing idealized: signature verification
checks key equality). -/
structure Token where
  sub : String
  exp : Nat
  typ : Option String
  key : String
deriving DecidableEq, Repr

/-- A token string on the wire: either the encoding of a well-formed signed
token, or an arbitrary string that is not a JWT (the encoding of a JWT is
injective, so the two classes are disjoint). -/
inductive TokenWire where
  | tok (t : Token)
  | raw (s : String)
deriving DecidableEq, Repr

/-- Python truthiness of a cookie value: `None` or the empty string are
falsy (`if not refresh_token`). -/
def cookieFalsy : Option TokenWire → Bool
  | none => true
  | some (.raw "") => true
  | some _ => false

/-- `create_access_token` (src/utils/auth.py lines 49-53) with the default
`expires_delta`: payload `{sub, exp = now + access_token_expire_minutes}`
signed with the server secret; no `typ` claim is added. -/
def create_access_token (st : ModelSettings) (sub : String) (now : Nat) : Token :=
  ⟨sub, now + st.access_token_expire_minutes * 60, none, st.secret_key⟩

/-- Modelled from the spec: `create_refresh_token` is imported by
src/routers/users.py from utils.auth but its definition is not under src/.
Spec 4.2: same signing mechanism as the access token, `exp = now +
refreshTTL` (days), and it carries a `typ` discriminator distinguishing it
from an access token. -/
def create_refresh_token (st : ModelSettings) (sub : String) (now : Nat) : Token :=
  ⟨sub, now + st.refresh_token_expire_days * 86400, some "refresh", st.secret_key⟩

/-- An HTTP error response: status code and client-visible detail string. -/
structure HttpError where
  statusCode : Nat
  detail : String
deriving DecidableEq, Repr

/-- `decode_access_token` (src/utils/auth.py lines 56-70): `jwt.decode`
verifies the signature and then the `exp` claim; `ExpiredSignatureError`
is surfaced as 401 "token is expired", any other `InvalidTokenError`
(malformed string, wrong signature) as 401 "invalid token". -/
def decode_access_token (st : ModelSettings) (w : TokenWire) (now : Nat) :
    Except HttpError Token :=
  match w with
  | .raw _ => .error ⟨401, "invalid token"⟩
  | .tok t =>
    if t.key ≠ st.secret_key then .error ⟨401, "invalid token"⟩
    else if t.exp ≤ now then .error ⟨401, "token is expired"⟩
    else .ok t

/-- Modelled from the spec: `decode_token` is imported by
src/routers/users.py from utils.auth but its definition is not under src/.
Spec 4.2 and 7: it verifies signature, expiry and the type discriminator
(an access token carries no `typ` claim, so its effective type is
"access"), and every failure is surfaced to the caller as 401 with detail
"invalid token" (expired vs malformed is distinguished only in server-side
logs). -/
def decode_token (st : ModelSettings) (w : TokenWire) (expectedType : String)
    (now : Nat) : Except HttpError Token :=
  match w with
  | .raw _ => .error ⟨401, "invalid token"⟩
  | .tok t =>
    if t.key ≠ st.secret_key then .error ⟨401, "invalid token"⟩
    else if t.exp ≤ now then .error ⟨401, "invalid token"⟩
    else if t.typ.getD "access" ≠ expectedType then .error ⟨401, "invalid token"⟩
    else .ok t

/-- SHA-256 of a token string, idealized as an injective construction
(modelled from the spec: `hash_token` is imported by src/routers/users.py
but its definition is not under src/; spec 3 stores the "hash of the
current refresh token (never the raw token)"). -/
structure TokenHash where
  w : TokenWire
deriving DecidableEq, Repr

/-- Modelled from the spec: `hash_token` maps the raw refresh-token string
to the digest stored in the `user_sessions.refresh_token` column. -/
def hash_token (w : TokenWire) : TokenHash := ⟨w⟩

/-- C4: refresh tokens carry a `typ` discriminator while access tokens do
not, and `decode_token` enforces it: decoding a fresh access token as
"access" recovers the subject, decoding it as "refresh" fails 401, decoding
a fresh refresh token as "refresh" recovers the subject, and decoding it as
"access" fails 401 — a token of one type is never accepted as the other. -/
theorem token_type_discriminator (st : ModelSettings) (s : String) (now : Nat)
    (haccess : 0 < st.access_token_expire_minutes)
    (hrefresh : 0 < st.refresh_token_expire_days) :
    (∃ p, decode_token st (.tok (create_access_token st s now)) "access" now = .ok p
          ∧ p.sub = s) ∧
    (∃ e, decode_token st (.tok (create_access_token st s now)) "refresh" now = .error e
          ∧ e.statusCode = 401) ∧
    (∃ p, decode_token st (.tok (create_refresh_token st s now)) "refresh" now = .ok p
          ∧ p.sub = s) ∧
    (∃ e, decode_token st (.tok (create_refresh_token st s now)) "access" now = .error e
          ∧ e.statusCode = 401) := by
  have ha : ¬ (now + st.access_token_expire_minutes * 60 ≤ now) := by omega
  have hr : ¬ (now + st.refresh_token_expire_days * 86400 ≤ now) := by omega
  refine ⟨⟨create_access_token st s now, ?_, rfl⟩,
         ⟨⟨401, "invalid token"⟩, ?_, rfl⟩,
         ⟨create_refresh_token st s now, ?_, rfl⟩,
         ⟨⟨401, "invalid token"⟩, ?_, rfl⟩⟩ <;>
    simp [decode_token, create_access_token, create_refresh_token, ha, hr]

/-- C4 witness: the discriminator theorem at concrete settings, subject and
time. -/
theorem token_type_discriminator_witness :
    (∃ p, decode_token ⟨"sk", "pp", 30, 7, true⟩
        (.tok (create_access_token ⟨"sk", "pp", 30, 7, true⟩ "user_1" 1000))
        "access" 1000 = .ok p ∧ p.sub = "user_1") ∧
    (∃ e, decode_token ⟨"sk", "pp", 30, 7, true⟩
        (.tok (create_access_token ⟨"sk", "pp", 30, 7, true⟩ "user_1" 1000))
        "refresh" 1000 = .error e ∧ e.statusCode = 401) ∧
    (∃ p, decode_token ⟨"sk", "pp", 30, 7, true⟩
        (.tok (create_refresh_token ⟨"sk", "pp", 30, 7, true⟩ "user_1" 1000))
        "refresh" 1000 = .ok p ∧ p.sub = "user_1") ∧
    (∃ e, decode_token ⟨"sk", "pp", 30, 7, true⟩
        (.tok (create_refresh_token ⟨"sk", "pp", 30, 7, true⟩ "user_1" 1000))
        "access" 1000 = .error e ∧ e.statusCode = 401) :=
  token_type_discriminator ⟨"sk", "pp", 30, 7, true⟩ "user_1" 1000
    (by decide) (by decide)

/-- C8 counterexample: decode failures are not surfaced with one uniform
detail string.  An expired (correctly signed) token fails
`decode_access_token` with detail "token is expired", not "invalid token":
the expired-vs-malformed distinction is visible to the client in the 401
body, contradicting the claim that both cases carry the identical detail
"invalid token". -/
theorem decode_detail_not_uniform :
    decode_access_token ⟨"sk", "pp", 30, 7, true⟩
        (.tok ⟨"user_1", 500, none, "sk"⟩) 1000 =
      .error ⟨401, "token is expired"⟩ ∧
    ¬ decode_access_token ⟨"sk", "pp", 30, 7, true⟩
        (.tok ⟨"user_1", 500, none, "sk"⟩) 1000 =
      .error ⟨401, "invalid token"⟩ := by
  constructor <;> simp [decode_access_token]

/-- C8 amended: every decode failure of `decode_access_token` raises an
HTTP 401 error; the detail is "token is expired" when the signature is
valid but the `exp` claim is in the past, and "invalid token" when the
token is malformed or the signature does not verify. -/
theorem decode_failure_taxonomy (st : ModelSettings) (w : TokenWire) (now : Nat)
    (e : HttpError) (hfail : decode_access_token st w now = .error e) :
    e.statusCode = 401 ∧
    ((∃ t, w = .tok t ∧ t.key = st.secret_key ∧ t.exp ≤ now ∧
        e.detail = "token is expired") ∨
     ((∀ t, w = .tok t → t.key = st.secret_key → now < t.exp → False) ∧
        e.detail = "invalid token")) := by
  match w with
  | .raw s =>
    simp only [decode_access_token] at hfail
    cases hfail
    exact ⟨rfl, .inr ⟨fun t ht _ _ => TokenWire.noConfusion ht, rfl⟩⟩
  | .tok t =>
    simp only [decode_access_token] at hfail
    by_cases hk : t.key ≠ st.secret_key
    · rw [if_pos hk] at hfail
      cases hfail
      refine ⟨rfl, .inr ⟨fun t' ht' hkey _ => ?_, rfl⟩⟩
      cases ht'
      exact hk hkey
    · rw [if_neg hk] at hfail
      by_cases he : t.exp ≤ now
      · rw [if_pos he] at hfail
        cases hfail
        exact ⟨rfl, .inl ⟨t, rfl, by simpa using hk, he, rfl⟩⟩
      · rw [if_neg he] at hfail
        cases hfail

/-- C8 amended witness: the taxonomy theorem applied to a concrete
malformed token. -/
theorem decode_failure_taxonomy_witness :
    (⟨401, "invalid token"⟩ : HttpError).statusCode = 401 ∧
    ((∃ t, TokenWire.raw "garbage" = .tok t ∧ t.key = "sk" ∧ t.exp ≤ 1000 ∧
        (⟨401, "invalid token"⟩ : HttpError).detail = "token is expired") ∨
     ((∀ t, TokenWire.raw "garbage" = .tok t → t.key = "sk" → 1000 < t.exp → False) ∧
        (⟨401, "invalid token"⟩ : HttpError).detail = "invalid token")) :=
  decode_failure_taxonomy ⟨"sk", "pp", 30, 7, true⟩ (.raw "garbage") 1000
    ⟨401, "invalid token"⟩ (by simp [decode_access_token])

/-! ## Users, sessions and the auth route handlers (src/routers/users.py) -/

/-- A row of the `users` table as the login path reads it
(src/routers/users.py line 76: `SELECT id, password FROM users WHERE email = %s`). -/
structure DbUser where
  id : String
  email : String
  password : StoredHash
deriving DecidableEq, Repr

/-- A row of the `user_sessions` table (src/db/models/user_session.py).
The primary key `sess_{uuid4().hex}` is modelled as a `Nat` drawn from a
fresh counter (uuid uniqueness idealized); `refresh_token` stores the hash
of the current refresh token. -/
structure Session where
  id : Nat
  user_id : String
  refresh_token : TokenHash
  device_info : String
  created_at : Nat
  last_used_at : Nat
deriving DecidableEq, Repr

/-- The login/refresh response body (`TokenResponse`, src/schemas/user.py). -/
structure TokenResponse where
  access_token : Token
  token_type : String
deriving DecidableEq, Repr

/-- Observable outcome of a successful login or refresh: the new contents
of the session store, the JSON body, and the refresh token set in the
`refresh_token` cookie. -/
structure AuthOk where
  sessions : List Session
  body : TokenResponse
  cookie : Token
deriving DecidableEq, Repr

/-- `get_auth_tokens` (src/routers/users.py lines 68-125): look the user up
by email, verify the password (against `DUMMY_HASH` when no account
matches, so the verify call always happens), and on success mint both
tokens, insert a session row and set the refresh cookie.  The second
component counts the `verify_password` invocations the request performed. -/
def get_auth_tokens (st : ModelSettings) (users : List DbUser)
    (sessions : List Session) (email password device : String) (now : Nat)
    (sid : Nat) (dummySalt : BSalt) : Except HttpError AuthOk × Nat :=
  let db_user := users.find? (fun u => u.email = email)
  let hashed_password := match db_user with
    | some u => u.password
    | none => DUMMY_HASH st dummySalt
  let is_password_correct := verify_password st password hashed_password
  let verifyCalls := 1
  match db_user with
  | none => (.error ⟨401, "Incorrect email or password"⟩, verifyCalls)
  | some u =>
    if ¬ is_password_correct then
      (.error ⟨401, "Incorrect email or password"⟩, verifyCalls)
    else
      let access_token := create_access_token st u.id now
      let refresh_token := create_refresh_token st u.id now
      let sess : Session := ⟨sid, u.id, hash_token (.tok refresh_token), device, now, now⟩
      (.ok ⟨sessions ++ [sess], ⟨access_token, "bearer"⟩, refresh_token⟩, verifyCalls)

/-- `refresh_access_token` (src/routers/users.py lines 128-198): reject an
absent or empty cookie, decode the presented token as a refresh token,
reject a falsy `sub`, look the session up by the token's hash (`fetchone`
returns the first matching row), cross-check the owner, then mint new
tokens and overwrite the matched row (`UPDATE ... WHERE id = %s`) with the
new hash and `last_used_at = CURRENT_TIMESTAMP`. -/
def refresh_access_token (st : ModelSettings) (sessions : List Session)
    (cookie : Option TokenWire) (now : Nat) : Except HttpError AuthOk :=
  match cookie with
  | none => .error ⟨401, "refresh token not found"⟩
  | some w =>
    if w = .raw "" then .error ⟨401, "refresh token not found"⟩
    else
      match decode_token st w "refresh" now with
      | .error e => .error e
      | .ok payload =>
        let user_id := payload.sub
        if user_id = "" then .error ⟨401, "invalid token"⟩
        else
          let hashed_token := hash_token w
          match sessions.find? (fun s => s.refresh_token = hashed_token) with
          | none => .error ⟨401, "invalid token"⟩
          | some session =>
            if session.user_id ≠ user_id then .error ⟨401, "invalid token"⟩
            else
              let new_access_token := create_access_token st user_id now
              let new_refresh_token := create_refresh_token st user_id now
              let updated := sessions.map (fun s =>
                if s.id = session.id then
                  { s with refresh_token := hash_token (.tok new_refresh_token),
                           last_used_at := now }
                else s)
              .ok ⟨updated, ⟨new_access_token, "bearer"⟩, new_refresh_token⟩

/-- `logout` (src/routers/users.py lines 201-214): when a truthy cookie is
present, delete every session row whose stored hash equals the presented
token's hash; always clear the cookie. -/
def logout (sessions : List Session) (cookie : Option TokenWire) : List Session :=
  if cookieFalsy cookie then sessions
  else
    match cookie with
    | none => sessions
    | some w => sessions.filter (fun s => ¬ s.refresh_token = hash_token w)

/-- C6: a failing login — whether the email matched no account or the
password was wrong — performs exactly one `verify_password` call (the
dummy hash standing in when no account matches) and yields the one
response `401 "Incorrect email or password"`, so the two failure sub-cases
are indistinguishable to the client. -/
theorem login_failure_uniform (st : ModelSettings) (users : List DbUser)
    (sessions : List Session) (email password device : String) (now : Nat)
    (sid : Nat) (dummySalt : BSalt) :
    (get_auth_tokens st users sessions email password device now sid dummySalt).2 = 1 ∧
    ∀ e, (get_auth_tokens st users sessions email password device now sid
            dummySalt).1 = .error e →
      e = ⟨401, "Incorrect email or password"⟩ := by
  unfold get_auth_tokens
  cases hu : users.find? (fun u => u.email = email) with
  | none => exact ⟨rfl, fun e he => by cases he; rfl⟩
  | some u =>
    by_cases hv : verify_password st password u.password
    · simp only [hu, hv]
      exact ⟨rfl, fun e he => by simp at he⟩
    · simp only [hu, hv]
      exact ⟨rfl, fun e he => by simp at he; simp [← he]⟩

/-- C6 witness: a login against an empty user store fails with the uniform
error after exactly one verify call. -/
theorem login_failure_uniform_witness :
    (get_auth_tokens ⟨"sk", "pp", 30, 7, true⟩ [] [] "a@x.com" "pw" "d" 100 0
        ⟨0⟩).2 = 1 ∧
    (⟨401, "Incorrect email or password"⟩ : HttpError) =
      ⟨401, "Incorrect email or password"⟩ :=
  ⟨(login_failure_uniform ⟨"sk", "pp", 30, 7, true⟩ [] [] "a@x.com" "pw" "d" 100 0
      ⟨0⟩).1,
   (login_failure_uniform ⟨"sk", "pp", 30, 7, true⟩ [] [] "a@x.com" "pw" "d" 100 0
      ⟨0⟩).2 ⟨401, "Incorrect email or password"⟩ rfl⟩

/-! ## Helper lemmas on lists -/

/-- `fetchone` on a query whose result set is a single row returns that
row: if filtering by `p` leaves exactly `[a]`, then `find?` returns `a`. -/
theorem find?_eq_of_filter_singleton {α} {p : α → Bool} :
    ∀ {l : List α} {a : α}, l.filter p = [a] → l.find? p = some a := by
  intro l
  induction l with
  | nil => intro a h; simp at h
  | cons b tl ih =>
    intro a h
    rw [List.filter_cons] at h
    by_cases hb : p b
    · simp only [hb, if_true] at h
      injection h with h1 _
      rw [List.find?_cons_of_pos _ hb, h1]
    · simp only [hb, if_false] at h
      rw [List.find?_cons_of_neg _ (by simpa using hb)]
      exact ih h

/-- C2: when the cookie token decodes as a refresh token with a non-empty
subject, its hash matches exactly one session row, and that row's owner
equals the token's `sub`, the handler returns 200 with a freshly minted
access token for that subject, rotates exactly the matched row (new hash,
`last_used_at = now`), sets the freshly minted refresh token in the
cookie, and leaves every other session row unmodified. -/
theorem refresh_success_postcondition (st : ModelSettings)
    (sessions : List Session) (w : TokenWire) (t : Token) (now : Nat)
    (hdec : decode_token st w "refresh" now = .ok t)
    (hsub : ¬ t.sub = "")
    (huniq : (sessions.filter (fun s => s.refresh_token = hash_token w)).length = 1)
    (howner : ∀ s ∈ sessions, s.refresh_token = hash_token w → s.user_id = t.sub)
    (hids : (sessions.map Session.id).Nodup) :
    ∃ sess updated,
      sess ∈ sessions ∧ sess.refresh_token = hash_token w ∧
      refresh_access_token st sessions (some w) now =
        .ok ⟨updated, ⟨create_access_token st t.sub now, "bearer"⟩,
             create_refresh_token st t.sub now⟩ ∧
      updated = sessions.map (fun s =>
        if s.id = sess.id then
          { s with refresh_token := hash_token (.tok (create_refresh_token st t.sub now)),
                   last_used_at := now }
        else s) ∧
      { sess with refresh_token := hash_token (.tok (create_refresh_token st t.sub now)),
                  last_used_at := now } ∈ updated ∧
      ∀ s ∈ sessions, ¬ s = sess → s ∈ updated := by
  obtain ⟨a, ha⟩ := List.length_eq_one.mp huniq
  have hafilter : a ∈ sessions.filter (fun s => s.refresh_token = hash_token w) := by
    rw [ha]; exact List.mem_singleton_self a
  have hamem : a ∈ sessions := (List.mem_filter.mp hafilter).1
  have hahash : a.refresh_token = hash_token w := by
    have := (List.mem_filter.mp hafilter).2
    simpa using this
  have hfind : sessions.find? (fun s => s.refresh_token = hash_token w) = some a :=
    find?_eq_of_filter_singleton ha
  have haowner : a.user_id = t.sub := howner a hamem hahash
  obtain ⟨t0, rfl⟩ : ∃ t0, w = .tok t0 := by
    cases w with
    | tok t0 => exact ⟨t0, rfl⟩
    | raw s => simp [decode_token] at hdec
  refine ⟨a, _, hamem, hahash, ?_, rfl, ?_, ?_⟩
  · show refresh_access_token st sessions (some (.tok t0)) now = _
    simp only [refresh_access_token]
    rw [if_neg (by simp)]
    simp only [hdec, hfind]
    rw [if_neg hsub, if_neg (by simp [haowner])]
  · exact List.mem_map.mpr ⟨a, hamem, by rw [if_pos rfl]⟩
  · intro s hs hne
    have hsid : ¬ s.id = a.id := fun h =>
      hne (List.inj_on_of_nodup_map hids hs hamem h)
    exact List.mem_map.mpr ⟨s, hs, by rw [if_neg hsid]⟩

/-- C2 witness: the postcondition theorem at a concrete store of one
session and a concrete refresh token. -/
theorem refresh_success_postcondition_witness :
    ∃ sess updated,
      sess ∈ [Session.mk 0 "user_1"
        (hash_token (.tok (create_refresh_token ⟨"sk", "pp", 30, 7, true⟩ "user_1" 100)))
        "d" 100 100] ∧
      sess.refresh_token =
        hash_token (.tok (create_refresh_token ⟨"sk", "pp", 30, 7, true⟩ "user_1" 100)) ∧
      refresh_access_token ⟨"sk", "pp", 30, 7, true⟩
        [Session.mk 0 "user_1"
          (hash_token (.tok (create_refresh_token ⟨"sk", "pp", 30, 7, true⟩ "user_1" 100)))
          "d" 100 100]
        (some (.tok (create_refresh_token ⟨"sk", "pp", 30, 7, true⟩ "user_1" 100))) 200 =
        .ok ⟨updated,
             ⟨create_access_token ⟨"sk", "pp", 30, 7, true⟩
                (create_refresh_token ⟨"sk", "pp", 30, 7, true⟩ "user_1" 100).sub 200,
              "bearer"⟩,
             create_refresh_token ⟨"sk", "pp", 30, 7, true⟩
               (create_refresh_token ⟨"sk", "pp", 30, 7, true⟩ "user_1" 100).sub 200⟩ ∧
      updated = [Session.mk 0 "user_1"
          (hash_token (.tok (create_refresh_token ⟨"sk", "pp", 30, 7, true⟩ "user_1" 100)))
          "d" 100 100].map (fun s =>
        if s.id = sess.id then
          { s with refresh_token := hash_token (.tok (create_refresh_token
              ⟨"sk", "pp", 30, 7, true⟩
              (create_refresh_token ⟨"sk", "pp", 30, 7, true⟩ "user_1" 100).sub 200)),
                   last_used_at := 200 }
        else s) ∧
      { sess with refresh_token := hash_token (.tok (create_refresh_token
          ⟨"sk", "pp", 30, 7, true⟩
          (create_refresh_token ⟨"sk", "pp", 30, 7, true⟩ "user_1" 100).sub 200)),
                  last_used_at := 200 } ∈ updated ∧
      ∀ s ∈ [Session.mk 0 "user_1"
          (hash_token (.tok (create_refresh_token ⟨"sk", "pp", 30, 7, true⟩ "user_1" 100)))
          "d" 100 100], ¬ s = sess → s ∈ updated :=
  refresh_success_postcondition ⟨"sk", "pp", 30, 7, true⟩
    [Session.mk 0 "user_1"
      (hash_token (.tok (create_refresh_token ⟨"sk", "pp", 30, 7, true⟩ "user_1" 100)))
      "d" 100 100]
    (.tok (create_refresh_token ⟨"sk", "pp", 30, 7, true⟩ "user_1" 100))
    (create_refresh_token ⟨"sk", "pp", 30, 7, true⟩ "user_1" 100) 200
    rfl (by decide) (by decide) (by decide) (by decide)

/-! ## Reachable session-store states: event traces over the auth routes -/

/-- One inbound request against the auth routes, with the wall-clock time
(`datetime.now(UTC)`, seconds) at which the handler runs made explicit. -/
inductive AuthEvent where
  | login (email password device : String) (time : Nat)
  | refresh (w : TokenWire) (time : Nat)
  | logout (cookie : Option TokenWire)
deriving DecidableEq, Repr

/-- The server-side mutable state: the `user_sessions` table plus the
counter backing fresh session ids. -/
structure SysState where
  sessions : List Session
  nextSid : Nat
deriving DecidableEq, Repr

/-- The state at process start: no sessions. -/
def initState : SysState := ⟨[], 0⟩

/-- Serial (one request at a time) execution of one auth request against
the store; a request that fails with an HTTP error leaves the table
unchanged. -/
def stepEv (st : ModelSettings) (users : List DbUser) (dummySalt : BSalt)
    (s : SysState) (e : AuthEvent) : SysState :=
  match e with
  | .login email password device time =>
    match (get_auth_tokens st users s.sessions email password device time
             s.nextSid dummySalt).1 with
    | .ok r => ⟨r.sessions, s.nextSid + 1⟩
    | .error _ => ⟨s.sessions, s.nextSid + 1⟩
  | .refresh w time =>
    match refresh_access_token st s.sessions (some w) time with
    | .ok r => ⟨r.sessions, s.nextSid⟩
    | .error _ => s
  | .logout cookie => ⟨logout s.sessions cookie, s.nextSid⟩

/-- Run a trace of auth requests from the empty store. -/
def runTrace (st : ModelSettings) (users : List DbUser) (dummySalt : BSalt)
    (tr : List AuthEvent) : SysState :=
  tr.foldl (stepEv st users dummySalt) initState

/-- The (subject, time) pair at which an event would mint a refresh token:
a login mints for the account matching the email, a refresh mints for the
presented token's subject.  A JWT payload `{sub, exp, typ}` is a function
of this pair, so two issuances collide exactly when their keys collide. -/
def eventKey (users : List DbUser) : AuthEvent → Option (String × Nat)
  | .login email _ _ time =>
    match users.find? (fun u => u.email = email) with
    | some u => some (u.id, time)
    | none => none
  | .refresh (.tok t) time => some (t.sub, time)
  | .refresh (.raw _) _ => none
  | .logout _ => none

/-- All issuance keys of a trace, in order. -/
def traceKeys (users : List DbUser) (tr : List AuthEvent) : List (String × Nat) :=
  tr.filterMap (eventKey users)

/-- Distinct-issuance side condition: no two token-minting events of the
trace share (subject, time).  Without it two logins of one user in the
same second mint byte-identical refresh tokens. -/
def FreshIssuance (users : List DbUser) (tr : List AuthEvent) : Prop :=
  (traceKeys users tr).Nodup

/-- The refresh token an issuance key mints. -/
def refreshTokenOfKey (st : ModelSettings) (k : String × Nat) : Token :=
  create_refresh_token st k.1 k.2

/-- The stored hash an issuance key produces. -/
def hashOfKey (st : ModelSettings) (k : String × Nat) : TokenHash :=
  hash_token (.tok (refreshTokenOfKey st k))

theorem hashOfKey_inj (st : ModelSettings) {k k' : String × Nat}
    (h : hashOfKey st k = hashOfKey st k') : k = k' := by
  have h1 : refreshTokenOfKey st k = refreshTokenOfKey st k' := by
    have h2 := congrArg TokenHash.w h
    simp only [hashOfKey, hash_token] at h2
    exact TokenWire.tok.inj h2
  have hsub : k.1 = k'.1 := congrArg Token.sub h1
  have hexp := congrArg Token.exp h1
  simp only [refreshTokenOfKey, create_refresh_token] at hexp
  have : k.2 = k'.2 := by omega
  exact Prod.ext hsub this

/-- Successful decode analysed: the wire value was a well-signed,
unexpired token of the expected type, returned as the payload. -/
theorem decode_token_ok {st : ModelSettings} {w : TokenWire} {ty : String}
    {now : Nat} {p : Token} (h : decode_token st w ty now = .ok p) :
    w = .tok p ∧ p.key = st.secret_key ∧ now < p.exp ∧ p.typ.getD "access" = ty := by
  cases w with
  | raw s => simp [decode_token] at h
  | tok t =>
    simp only [decode_token] at h
    split_ifs at h with h1 h2 h3
    injection h with h'
    subst h'
    exact ⟨rfl, by simpa using h1, by omega, by simpa using h3⟩

/-- Successful login analysed: an account matched the email and the new
state is the old table plus one fresh row holding the new token's hash. -/
theorem get_auth_tokens_ok_shape {st : ModelSettings} {users : List DbUser}
    {sessions : List Session} {email password device : String} {now sid : Nat}
    {dummySalt : BSalt} {r : AuthOk}
    (h : (get_auth_tokens st users sessions email password device now sid
            dummySalt).1 = .ok r) :
    ∃ u, users.find? (fun u => u.email = email) = some u ∧
      r.sessions = sessions ++ [⟨sid, u.id, hashOfKey st (u.id, now), device, now, now⟩] := by
  unfold get_auth_tokens at h
  cases hu : users.find? (fun u => u.email = email) with
  | none => rw [hu] at h; cases h
  | some u =>
    rw [hu] at h
    by_cases hv : verify_password st password u.password
    · simp only [hv, not_true, if_false] at h
      injection h with h'
      refine ⟨u, rfl, ?_⟩
      rw [← h']
      rfl
    · simp only [hv, Bool.not_eq_true] at h
      rw [if_pos (by simp [hv])] at h
      cases h

/-- Successful refresh analysed: the cookie carried a well-signed unexpired
refresh token with non-empty subject, `fetchone` found a session row with
the token's hash owned by the token's subject, and the new state rewrites
exactly the rows carrying that session id. -/
theorem refresh_ok_shape {st : ModelSettings} {sessions : List Session}
    {w : TokenWire} {now : Nat} {r : AuthOk}
    (h : refresh_access_token st sessions (some w) now = .ok r) :
    ∃ tk sess, w = .tok tk ∧
      tk.key = st.secret_key ∧ now < tk.exp ∧ tk.typ.getD "access" = "refresh" ∧
      ¬ tk.sub = "" ∧
      sessions.find? (fun s => s.refresh_token = hash_token w) = some sess ∧
      sess.user_id = tk.sub ∧
      r.sessions = sessions.map (fun s =>
        if s.id = sess.id then
          { s with refresh_token := hashOfKey st (tk.sub, now), last_used_at := now }
        else s) ∧
      r.cookie = refreshTokenOfKey st (tk.sub, now) := by
  simp only [refresh_access_token] at h
  by_cases hraw : w = .raw ""
  · rw [if_pos hraw] at h; simp at h
  · rw [if_neg hraw] at h
    cases hdec : decode_token st w "refresh" now with
    | error e =>
      simp only [hdec] at h
      exact Except.noConfusion h
    | ok p =>
      simp only [hdec] at h
      obtain ⟨hw, hkey, hexp, htyp⟩ := decode_token_ok hdec
      by_cases hsub : p.sub = ""
      · rw [if_pos hsub] at h; simp at h
      · rw [if_neg hsub] at h
        cases hfind : sessions.find? (fun s => s.refresh_token = hash_token w) with
        | none =>
          simp only [hfind] at h
          exact Except.noConfusion h
        | some sess =>
          simp only [hfind] at h
          by_cases howner : sess.user_id = p.sub
          · rw [if_neg (by simpa using howner)] at h
            injection h with h'
            refine ⟨p, sess, hw, hkey, hexp, htyp, hsub, rfl, howner, ?_, ?_⟩
            · rw [← h']; rfl
            · rw [← h']; rfl
          · rw [if_pos (by simpa using howner)] at h
            simp at h

/-- The row `find?` returns splits the list: everything before it fails
the predicate. -/
theorem find?_split {α} {p : α → Bool} :
    ∀ {l : List α} {a : α}, l.find? p = some a →
      ∃ l₁ l₂, l = l₁ ++ a :: l₂ ∧ ∀ b ∈ l₁, p b = false := by
  intro l
  induction l with
  | nil => intro a h; simp at h
  | cons b tl ih =>
    intro a h
    by_cases hb : p b
    · rw [List.find?_cons_of_pos _ hb] at h
      injection h with h'
      exact ⟨[], tl, by rw [h']; rfl, by simp⟩
    · rw [List.find?_cons_of_neg _ (by simpa using hb)] at h
      obtain ⟨l₁, l₂, heq, hfail⟩ := ih h
      refine ⟨b :: l₁, l₂, by rw [heq]; rfl, ?_⟩
      intro x hx
      rcases List.mem_cons.mp hx with hxb | hxl
      · subst hxb; simpa using hb
      · exact hfail x hxl

/-- Mapping a per-id rewrite over a table with unique ids rewrites exactly
the distinguished row. -/
theorem map_ite_id_eq {f : Session → Session} {l₁ l₂ : List Session} {sess : Session}
    (hids : ((l₁ ++ sess :: l₂).map Session.id).Nodup) :
    (l₁ ++ sess :: l₂).map (fun c => if c.id = sess.id then f c else c) =
      l₁ ++ f sess :: l₂ := by
  rw [List.map_append] at hids
  rw [List.map_cons] at hids
  obtain ⟨h₁, h₂, hdisj⟩ := List.nodup_append.mp hids
  have hl₁ : ∀ b ∈ l₁, ¬ b.id = sess.id := by
    intro b hb hbe
    exact hdisj (List.mem_map_of_mem Session.id hb) (by simp [hbe])
  have hl₂ : ∀ b ∈ l₂, ¬ b.id = sess.id := by
    intro b hb hbe
    have := (List.nodup_cons.mp h₂).1
    exact this (hbe ▸ List.mem_map_of_mem Session.id hb)
  rw [List.map_append, List.map_cons, if_pos rfl]
  congr 1
  · calc l₁.map (fun c => if c.id = sess.id then f c else c)
        = l₁.map id := List.map_congr_left (fun b hb => by
            rw [if_neg (hl₁ b hb)]; rfl)
      _ = l₁ := List.map_id l₁
  · congr 1
    calc l₂.map (fun c => if c.id = sess.id then f c else c)
        = l₂.map id := List.map_congr_left (fun b hb => by
            rw [if_neg (hl₂ b hb)]; rfl)
      _ = l₂ := List.map_id l₂

/-- Inductive invariant of the session store: every stored hash was minted
at one of the processed issuance keys and every id was drawn below the
counter; hashes are pairwise distinct; ids are pairwise distinct. -/
def SessInv (st : ModelSettings) (ks : List (String × Nat)) (s : SysState) : Prop :=
  (∀ c ∈ s.sessions,
     (∃ k, k ∈ ks ∧ c.refresh_token = hashOfKey st k) ∧ c.id < s.nextSid) ∧
  (s.sessions.map Session.refresh_token).Nodup ∧
  (s.sessions.map Session.id).Nodup

theorem SessInv_keys_extend {st : ModelSettings} {ks ks' : List (String × Nat)}
    {s : SysState} (h : SessInv st ks s) (hsub : ∀ k ∈ ks, k ∈ ks') :
    SessInv st ks' s := by
  refine ⟨fun c hc => ?_, h.2.1, h.2.2⟩
  obtain ⟨⟨k, hk, he⟩, hid⟩ := h.1 c hc
  exact ⟨⟨k, hsub k hk, he⟩, hid⟩

theorem SessInv_bump {st : ModelSettings} {ks : List (String × Nat)}
    {sessions : List Session} {n : Nat} (h : SessInv st ks ⟨sessions, n⟩) :
    SessInv st ks ⟨sessions, n + 1⟩ := by
  refine ⟨fun c hc => ?_, h.2.1, h.2.2⟩
  obtain ⟨hk, hid⟩ := h.1 c hc
  exact ⟨hk, Nat.lt_succ_of_lt hid⟩

theorem SessInv_sublist {st : ModelSettings} {ks : List (String × Nat)}
    {sessions sessions' : List Session} {n : Nat}
    (h : SessInv st ks ⟨sessions, n⟩) (hsub : sessions'.Sublist sessions) :
    SessInv st ks ⟨sessions', n⟩ :=
  ⟨fun c hc => h.1 c (hsub.subset hc),
   (h.2.1).sublist (hsub.map Session.refresh_token),
   (h.2.2).sublist (hsub.map Session.id)⟩

/-- A hash minted at an unprocessed key cannot be in the table. -/
theorem hashOfKey_not_mem {st : ModelSettings} {ks : List (String × Nat)}
    {sessions : List Session} {k : String × Nat}
    (hP : ∀ c ∈ sessions, ∃ k', k' ∈ ks ∧ c.refresh_token = hashOfKey st k')
    (hk : k ∉ ks) : hashOfKey st k ∉ sessions.map Session.refresh_token := by
  intro hmem
  obtain ⟨c, hc, hce⟩ := List.mem_map.mp hmem
  obtain ⟨k', hk', he⟩ := hP c hc
  rw [he] at hce
  exact hk (hashOfKey_inj st hce ▸ hk')

/-- `logout` only removes rows. -/
theorem logout_sublist (sessions : List Session) (cookie : Option TokenWire) :
    (logout sessions cookie).Sublist sessions := by
  unfold logout
  split
  · exact List.Sublist.refl _
  · split
    · exact List.Sublist.refl _
    · exact List.filter_sublist sessions

/-- One serial request preserves the session-store invariant, provided the
issuance key the request would mint at (if any) is fresh. -/
theorem stepEv_inv {st : ModelSettings} {users : List DbUser} {dummySalt : BSalt}
    {ks : List (String × Nat)} {s : SysState} {e : AuthEvent}
    (hinv : SessInv st ks s)
    (hfresh : ∀ k, eventKey users e = some k → k ∉ ks) :
    SessInv st (ks ++ (eventKey users e).toList) (stepEv st users dummySalt s e) := by
  obtain ⟨sl, nsid⟩ := s
  have hext : ∀ k ∈ ks, k ∈ ks ++ (eventKey users e).toList :=
    fun k hk => List.mem_append_left _ hk
  cases e with
  | login email password device time =>
    simp only [stepEv]
    split
    next r hr =>
      obtain ⟨u, hu, hsess⟩ := get_auth_tokens_ok_shape hr
      have hkey : eventKey users (.login email password device time) = some (u.id, time) := by
        simp [eventKey, hu]
      have hknotin : (u.id, time) ∉ ks := hfresh _ hkey
      rw [hkey]
      refine ⟨?_, ?_, ?_⟩
      · intro c hc
        rw [hsess] at hc
        rcases List.mem_append.mp hc with hold | hnew
        · obtain ⟨⟨k, hk, he⟩, hid⟩ := hinv.1 c hold
          exact ⟨⟨k, List.mem_append_left _ hk, he⟩, Nat.lt_succ_of_lt hid⟩
        · have hcv : c = ⟨nsid, u.id, hashOfKey st (u.id, time), device, time, time⟩ := by
            simpa using hnew
          subst hcv
          exact ⟨⟨(u.id, time), by simp, rfl⟩, Nat.lt_succ_self _⟩
      · rw [hsess, List.map_append, List.nodup_append]
        refine ⟨hinv.2.1, by simp, ?_⟩
        intro a ha hb
        simp only [List.map_cons, List.map_nil, List.mem_singleton] at hb
        subst hb
        exact hashOfKey_not_mem (fun c hc => (hinv.1 c hc).1) hknotin ha
      · rw [hsess, List.map_append, List.nodup_append]
        refine ⟨hinv.2.2, by simp, ?_⟩
        intro a ha hb
        have hb' : a = nsid := by simpa using hb
        obtain ⟨c, hc, hce⟩ := List.mem_map.mp ha
        have hce' : c.id = a := hce
        have hlt : c.id < nsid := by simpa using (hinv.1 c hc).2
        omega
    next err hr =>
      exact SessInv_keys_extend (SessInv_bump ⟨hinv.1, hinv.2.1, hinv.2.2⟩) hext
  | refresh w time =>
    simp only [stepEv]
    split
    next r hr =>
      obtain ⟨tk, sess, hw, hkeyq, hexpq, htypq, hsubq, hfind, howner, hsess, hcookie⟩ :=
        refresh_ok_shape hr
      subst hw
      have hkey : eventKey users (.refresh (.tok tk) time) = some (tk.sub, time) := rfl
      have hknotin : (tk.sub, time) ∉ ks := hfresh _ hkey
      rw [hkey]
      obtain ⟨l₁, l₂, hleq, hl₁⟩ := find?_split hfind
      have hsessmem : sess ∈ sl := List.mem_of_find?_eq_some hfind
      have hids' : ((l₁ ++ sess :: l₂).map Session.id).Nodup := by
        rw [← hleq]; exact hinv.2.2
      have hmemold : ∀ c ∈ l₁ ++ l₂, c ∈ sl := by
        intro c hc
        rw [hleq]
        rcases List.mem_append.mp hc with h1 | h2
        · exact List.mem_append_left _ h1
        · exact List.mem_append_right _ (List.mem_cons_of_mem _ h2)
      rw [hsess, hleq, map_ite_id_eq hids']
      refine ⟨?_, ?_, ?_⟩
      · intro c hc
        rcases List.mem_append.mp hc with h1 | h2
        · obtain ⟨⟨k, hk, he⟩, hid⟩ := hinv.1 c
            (hmemold c (List.mem_append_left _ h1))
          exact ⟨⟨k, List.mem_append_left _ hk, he⟩, hid⟩
        · rcases List.mem_cons.mp h2 with hc2 | h3
          · subst hc2
            refine ⟨⟨(tk.sub, time), by simp, rfl⟩, ?_⟩
            exact (hinv.1 sess hsessmem).2
          · obtain ⟨⟨k, hk, he⟩, hid⟩ := hinv.1 c
              (hmemold c (List.mem_append_right _ h3))
            exact ⟨⟨k, List.mem_append_left _ hk, he⟩, hid⟩
      · rw [List.map_append, List.map_cons]
        have hold : ((l₁ ++ sess :: l₂).map Session.refresh_token).Nodup := by
          rw [← hleq]; exact hinv.2.1
        rw [List.map_append, List.map_cons] at hold
        have hold' := List.nodup_middle.mp hold
        have hrest := (List.nodup_cons.mp hold').2
        refine List.nodup_middle.mpr (List.nodup_cons.mpr ⟨?_, hrest⟩)
        show hashOfKey st (tk.sub, time) ∉
          l₁.map Session.refresh_token ++ l₂.map Session.refresh_token
        rw [← List.map_append]
        exact hashOfKey_not_mem
          (fun c hc => (hinv.1 c (hmemold c hc)).1) hknotin
      · have hmapid : (l₁ ++ ({ sess with
            refresh_token := hashOfKey st (tk.sub, time),
            last_used_at := time } : Session) :: l₂).map Session.id =
            (l₁ ++ sess :: l₂).map Session.id := by
          simp [List.map_append]
        rw [hmapid]
        exact hids'
    next err hr =>
      exact SessInv_keys_extend ⟨hinv.1, hinv.2.1, hinv.2.2⟩ hext
  | logout cookie =>
    simp only [stepEv]
    exact SessInv_keys_extend
      (SessInv_sublist ⟨hinv.1, hinv.2.1, hinv.2.2⟩ (logout_sublist sl cookie)) hext

theorem traceKeys_cons (users : List DbUser) (e : AuthEvent) (tr : List AuthEvent) :
    traceKeys users (e :: tr) = (eventKey users e).toList ++ traceKeys users tr := by
  cases he : eventKey users e <;> simp [traceKeys, List.filterMap_cons, he]

theorem traceKeys_append (users : List DbUser) (tr₁ tr₂ : List AuthEvent) :
    traceKeys users (tr₁ ++ tr₂) = traceKeys users tr₁ ++ traceKeys users tr₂ := by
  simp [traceKeys, List.filterMap_append]

/-- The invariant carried along a whole trace of fresh-keyed requests. -/
theorem foldl_inv {st : ModelSettings} {users : List DbUser} {dummySalt : BSalt} :
    ∀ (tr : List AuthEvent) (s : SysState) (ks : List (String × Nat)),
      SessInv st ks s → (ks ++ traceKeys users tr).Nodup →
      SessInv st (ks ++ traceKeys users tr) (tr.foldl (stepEv st users dummySalt) s) := by
  intro tr
  induction tr with
  | nil =>
    intro s ks hinv hnd
    simpa [traceKeys] using hinv
  | cons e tr ih =>
    intro s ks hinv hnd
    rw [traceKeys_cons] at hnd ⊢
    rw [List.foldl_cons]
    have hfresh : ∀ k, eventKey users e = some k → k ∉ ks := by
      intro k hk hkin
      rw [hk] at hnd
      have hnd2 : (ks ++ (k :: traceKeys users tr)).Nodup := by simpa using hnd
      exact (List.nodup_append.mp hnd2).2.2 hkin (List.mem_cons_self _ _)
    have hnd' : ((ks ++ (eventKey users e).toList) ++ traceKeys users tr).Nodup := by
      rw [List.append_assoc]; exact hnd
    have h2 := ih (stepEv st users dummySalt s e) (ks ++ (eventKey users e).toList)
      (stepEv_inv hinv hfresh) hnd'
    rw [List.append_assoc] at h2
    exact h2

/-- The invariant holds in every state reachable by a fresh-issuance
trace. -/
theorem runTrace_inv {st : ModelSettings} {users : List DbUser} {dummySalt : BSalt}
    {tr : List AuthEvent} (hfresh : FreshIssuance users tr) :
    SessInv st (traceKeys users tr) (runTrace st users dummySalt tr) := by
  have h := @foldl_inv st users dummySalt tr initState []
    ⟨fun c hc => absurd hc (List.not_mem_nil c), by simp [initState], by simp [initState]⟩
    (by simpa using hfresh)
  simpa using h

/-- A hash absent from the table stays absent across any request whose
issuance key differs from the hash's key. -/
theorem stepEv_no_hash {st : ModelSettings} {users : List DbUser} {dummySalt : BSalt}
    {s : SysState} {e : AuthEvent} {k : String × Nat}
    (habs : ∀ c ∈ s.sessions, ¬ c.refresh_token = hashOfKey st k)
    (hne : ¬ eventKey users e = some k) :
    ∀ c ∈ (stepEv st users dummySalt s e).sessions,
      ¬ c.refresh_token = hashOfKey st k := by
  obtain ⟨sl, nsid⟩ := s
  cases e with
  | login email password device time =>
    simp only [stepEv]
    split
    next r hr =>
      obtain ⟨u, hu, hsess⟩ := get_auth_tokens_ok_shape hr
      intro c hc
      rw [hsess] at hc
      rcases List.mem_append.mp hc with hold | hnew
      · exact habs c hold
      · have hcv : c = ⟨nsid, u.id, hashOfKey st (u.id, time), device, time, time⟩ := by
          simpa using hnew
        subst hcv
        intro he
        have hek := hashOfKey_inj st he
        exact hne (by simp [eventKey, hu, hek])
    next err hr => exact habs
  | refresh w time =>
    simp only [stepEv]
    split
    next r hr =>
      obtain ⟨tk, sess, hw, hk1, hk2, hk3, hk4, hfind, howner, hsess, hcookie⟩ :=
        refresh_ok_shape hr
      subst hw
      intro c hc
      rw [hsess] at hc
      obtain ⟨b, hb, hbe⟩ := List.mem_map.mp hc
      by_cases hid : b.id = sess.id
      · rw [if_pos hid] at hbe
        intro he
        have heq : hashOfKey st (tk.sub, time) = hashOfKey st k := by
          rw [← he, ← hbe]
        have hek := hashOfKey_inj st heq
        exact hne (by simp [eventKey, hek])
      · rw [if_neg hid] at hbe
        exact hbe ▸ habs b hb
    next err hr => exact habs
  | logout cookie =>
    simp only [stepEv]
    intro c hc
    exact habs c ((logout_sublist sl cookie).subset hc)

theorem foldl_no_hash {st : ModelSettings} {users : List DbUser} {dummySalt : BSalt}
    {k : String × Nat} :
    ∀ (tr : List AuthEvent) (s : SysState),
      (∀ c ∈ s.sessions, ¬ c.refresh_token = hashOfKey st k) →
      (∀ e ∈ tr, ¬ eventKey users e = some k) →
      ∀ c ∈ (tr.foldl (stepEv st users dummySalt) s).sessions,
        ¬ c.refresh_token = hashOfKey st k := by
  intro tr
  induction tr with
  | nil => intro s habs _; simpa using habs
  | cons e tr ih =>
    intro s habs hne
    rw [List.foldl_cons]
    exact ih _ (stepEv_no_hash habs (hne e (List.mem_cons_self _ _)))
      (fun e' he' => hne e' (List.mem_cons_of_mem _ he'))

/-- Every failure of the spec-modelled `decode_token` carries 401 with the
uniform detail. -/
theorem decode_token_error_detail {st : ModelSettings} {w : TokenWire} {ty : String}
    {now : Nat} {e : HttpError} (h : decode_token st w ty now = .error e) :
    e = ⟨401, "invalid token"⟩ := by
  cases w with
  | raw s =>
    simp only [decode_token] at h
    injection h with h'
    exact h'.symm
  | tok t =>
    simp only [decode_token] at h
    split_ifs at h <;> (injection h with h'; exact h'.symm)

theorem decode_token_cases (st : ModelSettings) (w : TokenWire) (ty : String) (now : Nat) :
    decode_token st w ty now = .error ⟨401, "invalid token"⟩ ∨
    ∃ p, decode_token st w ty now = .ok p := by
  cases w with
  | raw s => exact .inl (by simp [decode_token])
  | tok t =>
    simp only [decode_token]
    split_ifs <;> first | exact .inl rfl | exact .inr ⟨t, rfl⟩

/-- A presented refresh token whose hash matches no row is refused with
the uniform 401 (whether or not it also expired). -/
theorem refresh_no_match_401 {st : ModelSettings} {sessions : List Session}
    {tk : Token} {now : Nat}
    (hsub : ¬ tk.sub = "")
    (habs : ∀ c ∈ sessions, ¬ c.refresh_token = hash_token (.tok tk)) :
    refresh_access_token st sessions (some (.tok tk)) now =
      .error ⟨401, "invalid token"⟩ := by
  simp only [refresh_access_token]
  rw [if_neg (by simp)]
  rcases decode_token_cases st (.tok tk) "refresh" now with hdec | ⟨p, hdec⟩
  · simp only [hdec]
  · have hp : p = tk := by
      have := (decode_token_ok hdec).1
      exact (TokenWire.tok.inj this).symm
    subst hp
    simp only [hdec]
    rw [if_neg hsub]
    rw [List.find?_eq_none.mpr (fun c hc => by simpa using habs c hc)]

/-- A presented refresh token that is well-signed, unexpired, of non-empty
subject, matched by `fetchone` and owner-consistent is rotated with 200. -/
theorem refresh_succeeds {st : ModelSettings} {sessions : List Session}
    {tk : Token} {now : Nat} {sess : Session}
    (hkey : tk.key = st.secret_key) (htyp : tk.typ = some "refresh")
    (hexp : now < tk.exp) (hsub : ¬ tk.sub = "")
    (hfind : sessions.find? (fun s => s.refresh_token = hash_token (.tok tk)) = some sess)
    (howner : sess.user_id = tk.sub) :
    ∃ r, refresh_access_token st sessions (some (.tok tk)) now = .ok r := by
  have hcalc : refresh_access_token st sessions (some (.tok tk)) now =
      .ok ⟨sessions.map (fun s =>
            if s.id = sess.id then
              { s with refresh_token := hash_token (.tok (create_refresh_token st tk.sub now)),
                       last_used_at := now }
            else s),
           ⟨create_access_token st tk.sub now, "bearer"⟩,
           create_refresh_token st tk.sub now⟩ := by
    simp only [refresh_access_token]
    rw [if_neg (by simp)]
    have hdec : decode_token st (.tok tk) "refresh" now = .ok tk := by
      simp only [decode_token]
      rw [if_neg (by simp [hkey]), if_neg (by omega), if_neg (by simp [htyp])]
    simp only [hdec, hfind]
    rw [if_neg hsub, if_neg (by simp [howner])]
  exact ⟨_, hcalc⟩

/-- C1 amended (rotate-on-use with reuse detection, under distinct
issuance keys): provided no two token-minting events of the trace share a
(subject, time) issuance key — without which two logins of one user in the
same second mint byte-identical refresh tokens — (i) every reachable
session-store state has pairwise-distinct stored refresh-token hashes, so
at most one row matches a given hash; (ii) after a successful refresh
consuming token `tk`, no row's stored hash equals `hash(tk)`, (iii) so any
later refresh presenting `tk`, after arbitrary further fresh-keyed
requests, fails with 401 "invalid token"; while (iv) a refresh presenting
the newly issued cookie token before it expires succeeds. -/
theorem rotate_on_use (st : ModelSettings) (users : List DbUser) (dummySalt : BSalt)
    (tr₁ tr₂ : List AuthEvent) (tk : Token) (t₁ t₂ t₃ : Nat) (r : AuthOk)
    (hfresh : FreshIssuance users (tr₁ ++ .refresh (.tok tk) t₁ :: tr₂))
    (hsucc : refresh_access_token st (runTrace st users dummySalt tr₁).sessions
        (some (.tok tk)) t₁ = .ok r)
    (ht₃ : t₃ < t₁ + st.refresh_token_expire_days * 86400) :
    (∀ tr, FreshIssuance users tr →
        List.Pairwise (fun a b => ¬ a.refresh_token = b.refresh_token)
          (runTrace st users dummySalt tr).sessions) ∧
    (∀ c ∈ r.sessions, ¬ c.refresh_token = hash_token (.tok tk)) ∧
    refresh_access_token st
        (runTrace st users dummySalt (tr₁ ++ .refresh (.tok tk) t₁ :: tr₂)).sessions
        (some (.tok tk)) t₂ = .error ⟨401, "invalid token"⟩ ∧
    (∃ r₂, refresh_access_token st r.sessions (some (.tok r.cookie)) t₃ = .ok r₂) := by
  have conj1 : ∀ tr, FreshIssuance users tr →
      List.Pairwise (fun a b => ¬ a.refresh_token = b.refresh_token)
        (runTrace st users dummySalt tr).sessions := by
    intro tr htr
    have h := (@runTrace_inv st users dummySalt tr htr).2.1
    unfold List.Nodup at h
    rw [List.pairwise_map] at h
    exact h
  have hndfull : (traceKeys users tr₁ ++ ((tk.sub, t₁) :: traceKeys users tr₂)).Nodup := by
    have h := hfresh
    rw [FreshIssuance, traceKeys_append, traceKeys_cons] at h
    simpa [eventKey] using h
  have hfresh1 : FreshIssuance users tr₁ :=
    (List.nodup_append.mp hndfull).1
  have hinv1 := @runTrace_inv st users dummySalt tr₁ hfresh1
  obtain ⟨tk', sess, hw, hkeyS, hexpS, htypS, hsubS, hfind, howner, hsess, hcookie⟩ :=
    refresh_ok_shape hsucc
  have htk2 : tk = tk' := TokenWire.tok.inj hw
  subst htk2
  have hsessmem : sess ∈ (runTrace st users dummySalt tr₁).sessions :=
    List.mem_of_find?_eq_some hfind
  have hsesshash : sess.refresh_token = hash_token (.tok tk) := by
    simpa using List.find?_some hfind
  obtain ⟨⟨k₀, hk₀mem, hk₀eq⟩, -⟩ := hinv1.1 sess hsessmem
  have hhk : hash_token (.tok tk) = hashOfKey st k₀ := by
    rw [← hsesshash, hk₀eq]
  have htk : tk = refreshTokenOfKey st k₀ := by
    have h := congrArg TokenHash.w hhk
    exact TokenWire.tok.inj (by simpa [hash_token, hashOfKey] using h)
  have hsubk : tk.sub = k₀.1 := by rw [htk]; rfl
  have hk₁ : (tk.sub, t₁) ∉ traceKeys users tr₁ := by
    intro hin
    exact (List.nodup_append.mp hndfull).2.2 hin (List.mem_cons_self _ _)
  have ht₁ne : ¬ t₁ = k₀.2 := by
    intro heq
    exact hk₁ (by
      rw [show ((tk.sub, t₁) : String × Nat) = k₀ from Prod.ext hsubk heq]
      exact hk₀mem)
  have conj2 : ∀ c ∈ r.sessions, ¬ c.refresh_token = hash_token (.tok tk) := by
    rw [hsess]
    intro c hc
    obtain ⟨b, hb, hbe⟩ := List.mem_map.mp hc
    by_cases hid : b.id = sess.id
    · rw [if_pos hid] at hbe
      rw [← hbe]
      intro he
      have hkk : (tk.sub, t₁) = k₀ := by
        apply hashOfKey_inj st
        have he' : hashOfKey st (tk.sub, t₁) = hash_token (.tok tk) := by
          simpa using he
        rw [he', hhk]
      exact ht₁ne (congrArg Prod.snd hkk)
    · rw [if_neg hid] at hbe
      rw [← hbe]
      intro he
      have hbsess : b = sess :=
        List.inj_on_of_nodup_map hinv1.2.1 hb hsessmem (by rw [he, hsesshash])
      exact hid (by rw [hbsess])
  have hrun : runTrace st users dummySalt (tr₁ ++ .refresh (.tok tk) t₁ :: tr₂) =
      tr₂.foldl (stepEv st users dummySalt)
        (stepEv st users dummySalt (runTrace st users dummySalt tr₁)
          (.refresh (.tok tk) t₁)) := by
    simp [runTrace, List.foldl_append]
  have hstep2 : stepEv st users dummySalt (runTrace st users dummySalt tr₁)
      (.refresh (.tok tk) t₁) = ⟨r.sessions, (runTrace st users dummySalt tr₁).nextSid⟩ := by
    simp only [stepEv, hsucc]
  have habs2 : ∀ c ∈ r.sessions, ¬ c.refresh_token = hashOfKey st k₀ := by
    intro c hc
    rw [← hhk]
    exact conj2 c hc
  have htr₂ : ∀ e' ∈ tr₂, ¬ eventKey users e' = some k₀ := by
    intro e' he' hk'
    have hk₀tr₂ : k₀ ∈ traceKeys users tr₂ :=
      List.mem_filterMap.mpr ⟨e', he', hk'⟩
    exact (List.nodup_append.mp hndfull).2.2 hk₀mem (List.mem_cons_of_mem _ hk₀tr₂)
  have habs3 : ∀ c ∈ (runTrace st users dummySalt
      (tr₁ ++ .refresh (.tok tk) t₁ :: tr₂)).sessions,
      ¬ c.refresh_token = hashOfKey st k₀ := by
    rw [hrun, hstep2]
    exact foldl_no_hash tr₂ ⟨r.sessions, (runTrace st users dummySalt tr₁).nextSid⟩
      habs2 htr₂
  have conj3 : refresh_access_token st
      (runTrace st users dummySalt (tr₁ ++ .refresh (.tok tk) t₁ :: tr₂)).sessions
      (some (.tok tk)) t₂ = .error ⟨401, "invalid token"⟩ := by
    apply refresh_no_match_401 hsubS
    intro c hc
    rw [hhk]
    exact habs3 c hc
  have conj4 : ∃ r₂, refresh_access_token st r.sessions (some (.tok r.cookie)) t₃ =
      .ok r₂ := by
    have hinv2 := @stepEv_inv st users dummySalt (traceKeys users tr₁)
      (runTrace st users dummySalt tr₁) (.refresh (.tok tk) t₁) hinv1 (fun k hk => by
        have hk2 : some ((tk.sub, t₁) : String × Nat) = some k := by
          rw [← hk]; rfl
        injection hk2 with hk3
        rw [← hk3]
        exact hk₁)
    rw [hstep2] at hinv2
    have hnodup2 : (r.sessions.map Session.refresh_token).Nodup := hinv2.2.1
    have hurow : ({ sess with
        refresh_token := hashOfKey st (tk.sub, t₁),
        last_used_at := t₁ } : Session) ∈ r.sessions := by
      rw [hsess]
      exact List.mem_map.mpr ⟨sess, hsessmem, by rw [if_pos rfl]⟩
    have hcookhash : hash_token (.tok r.cookie) = hashOfKey st (tk.sub, t₁) := by
      rw [hcookie]; rfl
    cases hfind2 : r.sessions.find?
        (fun s => s.refresh_token = hash_token (.tok r.cookie)) with
    | none =>
      exfalso
      have := List.find?_eq_none.mp hfind2 _ hurow
      simp [hcookhash] at this
    | some sess2 =>
      have hmem2 : sess2 ∈ r.sessions := List.mem_of_find?_eq_some hfind2
      have hhash2 : sess2.refresh_token = hash_token (.tok r.cookie) := by
        simpa using List.find?_some hfind2
      have hsess2 : sess2 = { sess with
          refresh_token := hashOfKey st (tk.sub, t₁),
          last_used_at := t₁ } :=
        List.inj_on_of_nodup_map hnodup2 hmem2 hurow (by rw [hhash2, hcookhash])
      refine refresh_succeeds ?_ ?_ ?_ ?_ hfind2 ?_
      · rw [hcookie]; rfl
      · rw [hcookie]; rfl
      · rw [hcookie]
        simpa [refreshTokenOfKey, create_refresh_token] using ht₃
      · rw [hcookie]
        exact hsubS
      · rw [hsess2, hcookie]
        simpa [refreshTokenOfKey, create_refresh_token] using howner
  exact ⟨conj1, conj2, conj3, conj4⟩

/-- Concrete settings for the rotate-on-use scenarios. -/
def c1S : ModelSettings := ⟨"sk", "pp", 30, 7, true⟩

/-- One-account user store for the rotate-on-use scenarios. -/
def c1Users : List DbUser := [⟨"user_1", "a@x.com", hash_password c1S ⟨0⟩ "Correct1!"⟩]

/-- The refresh token minted by a login of `user_1` at time 100. -/
def c1Tok : Token := create_refresh_token c1S "user_1" 100

/-- The refresh token minted by the rotation at time 200. -/
def c1Tok2 : Token := create_refresh_token c1S "user_1" 200

/-- A trace holding a single successful login at time 100. -/
def c1Trace1 : List AuthEvent := [.login "a@x.com" "Correct1!" "d" 100]

/-- The observable result of refreshing `c1Tok` at time 200. -/
def c1R : AuthOk :=
  ⟨[⟨0, "user_1", hash_token (.tok c1Tok2), "d", 100, 200⟩],
   ⟨create_access_token c1S "user_1" 200, "bearer"⟩, c1Tok2⟩

/-- C1 counterexample: the claimed invariant "at most one Session row
matches a given refresh-token hash in every reachable state" fails on the
code as modelled: two logins of the same account in the same second mint
byte-identical refresh tokens (payload `{sub, exp, typ}` with second
granularity and no nonce), so the reachable two-login state holds two rows
with the same stored hash. -/
theorem rotate_on_use_counterexample :
    ¬ List.Pairwise (fun a b => ¬ a.refresh_token = b.refresh_token)
        (runTrace c1S c1Users ⟨1⟩
          [.login "a@x.com" "Correct1!" "d" 100,
           .login "a@x.com" "Correct1!" "d" 100]).sessions := by
  decide

/-- C1 witness: the amended rotate-on-use theorem at the concrete
login-refresh scenario. -/
theorem rotate_on_use_witness :
    List.Pairwise (fun a b => ¬ a.refresh_token = b.refresh_token)
      (runTrace c1S c1Users ⟨1⟩
        (c1Trace1 ++ AuthEvent.refresh (.tok c1Tok) 200 :: [])).sessions ∧
    (∀ c ∈ c1R.sessions, ¬ c.refresh_token = hash_token (.tok c1Tok)) ∧
    refresh_access_token c1S
        (runTrace c1S c1Users ⟨1⟩
          (c1Trace1 ++ AuthEvent.refresh (.tok c1Tok) 200 :: [])).sessions
        (some (.tok c1Tok)) 300 = .error ⟨401, "invalid token"⟩ ∧
    (∃ r₂, refresh_access_token c1S c1R.sessions (some (.tok c1R.cookie)) 400 =
        .ok r₂) := by
  have H := rotate_on_use c1S c1Users ⟨1⟩ c1Trace1 [] c1Tok 200 300 400 c1R
    (by unfold FreshIssuance; decide) rfl (by decide)
  exact ⟨H.1 _ (by unfold FreshIssuance; decide), H.2.1, H.2.2.1, H.2.2.2⟩

/-! ## Concurrent refresh rotation: SELECT and UPDATE as separate atomic
store accesses.

The handler awaits the store twice: the SELECT/fetchone and the UPDATE
(src/routers/users.py lines 151-155 and 178-185).  The pool runs with
`autocommit=True` (src/utils/database.py line 42), the SELECT takes no row
lock, and the UPDATE is keyed on the session id, not on the old hash, so
between the two accesses of one request the other request's accesses can
be scheduled freely. -/

/-- Progress of one in-flight refresh request. -/
inductive RPhase where
  | ready
  | selected (sess : Session) (sub : String)
  | finished (result : Except HttpError TokenResponse)
deriving Repr

/-- Everything `refresh_access_token` does up to and including its
SELECT/fetchone and the pure checks around it. -/
def rstepSelect (st : ModelSettings) (w : TokenWire) (now : Nat)
    (store : List Session) : RPhase :=
  if w = .raw "" then .finished (.error ⟨401, "refresh token not found"⟩)
  else
    match decode_token st w "refresh" now with
    | .error e => .finished (.error e)
    | .ok payload =>
      if payload.sub = "" then .finished (.error ⟨401, "invalid token"⟩)
      else
        match store.find? (fun s => s.refresh_token = hash_token w) with
        | none => .finished (.error ⟨401, "invalid token"⟩)
        | some session =>
          if session.user_id ≠ payload.sub then
            .finished (.error ⟨401, "invalid token"⟩)
          else .selected session payload.sub

/-- The rest of the handler: mint the new tokens and commit
`UPDATE user_sessions SET refresh_token = %s, last_used_at = ... WHERE id = %s`. -/
def rstepUpdate (st : ModelSettings) (now : Nat) (sess : Session) (sub : String)
    (store : List Session) : List Session × RPhase :=
  let new_access_token := create_access_token st sub now
  let new_refresh_token := create_refresh_token st sub now
  (store.map (fun s =>
     if s.id = sess.id then
       { s with refresh_token := hash_token (.tok new_refresh_token),
                last_used_at := now }
     else s),
   .finished (.ok ⟨new_access_token, "bearer"⟩))

/-- Serial coherence: running the SELECT phase and then the UPDATE phase
with no interleaving computes exactly `refresh_access_token`. -/
theorem refresh_decomposes (st : ModelSettings) (w : TokenWire) (now : Nat)
    (store : List Session) :
    (∀ e, rstepSelect st w now store = .finished (.error e) →
       refresh_access_token st store (some w) now = .error e) ∧
    (∀ b, rstepSelect st w now store = .finished (.ok b) → False) ∧
    (∀ sess sub, rstepSelect st w now store = .selected sess sub →
       refresh_access_token st store (some w) now =
         .ok ⟨(rstepUpdate st now sess sub store).1,
              ⟨create_access_token st sub now, "bearer"⟩,
              create_refresh_token st sub now⟩) := by
  simp only [refresh_access_token, rstepSelect]
  by_cases hraw : w = .raw ""
  · simp only [if_pos hraw]
    refine ⟨?_, ?_, ?_⟩
    · intro e he
      injection he with h'
      injection h' with h2
      rw [← h2]
    · intro b hb
      injection hb with h'
      exact Except.noConfusion h'
    · intro sess sub hs
      exact RPhase.noConfusion hs
  · simp only [if_neg hraw]
    rcases decode_token_cases st w "refresh" now with hdec | ⟨p, hdec⟩
    · simp only [hdec]
      refine ⟨?_, ?_, ?_⟩
      · intro e he
        injection he with h'
        injection h' with h2
        rw [← h2]
      · intro b hb
        injection hb with h'
        exact Except.noConfusion h'
      · intro sess sub hs
        exact RPhase.noConfusion hs
    · simp only [hdec]
      by_cases hsub : p.sub = ""
      · simp only [if_pos hsub]
        refine ⟨?_, ?_, ?_⟩
        · intro e he
          injection he with h'
          injection h' with h2
          rw [← h2]
        · intro b hb
          injection hb with h'
          exact Except.noConfusion h'
        · intro sess sub hs
          exact RPhase.noConfusion hs
      · simp only [if_neg hsub]
        cases hfind : store.find? (fun s => s.refresh_token = hash_token w) with
        | none =>
          refine ⟨?_, ?_, ?_⟩
          · intro e he
            injection he with h'
            injection h' with h2
            rw [← h2]
          · intro b hb
            injection hb with h'
            exact Except.noConfusion h'
          · intro sess sub hs
            exact RPhase.noConfusion hs
        | some sess0 =>
          by_cases howner : sess0.user_id ≠ p.sub
          · simp only [if_pos howner]
            refine ⟨?_, ?_, ?_⟩
            · intro e he
              injection he with h'
              injection h' with h2
              rw [← h2]
            · intro b hb
              injection hb with h'
              exact Except.noConfusion h'
            · intro sess sub hs
              exact RPhase.noConfusion hs
          · simp only [if_neg howner]
            refine ⟨?_, ?_, ?_⟩
            · intro e he
              exact RPhase.noConfusion he
            · intro b hb
              exact RPhase.noConfusion hb
            · intro sess sub hs
              injection hs with h1 h2
              subst h1
              subst h2
              rfl

/-- Two in-flight refresh requests A and B over the shared `user_sessions`
table. -/
structure RaceState where
  store : List Session
  procA : RPhase
  procB : RPhase
deriving Repr

/-- Run one atomic store access of the scheduled request. -/
def raceStep (st : ModelSettings) (wA wB : TokenWire) (nowA nowB : Nat)
    (s : RaceState) (pickA : Bool) : RaceState :=
  if pickA then
    match s.procA with
    | .ready => { s with procA := rstepSelect st wA nowA s.store }
    | .selected sess sub =>
      let r := rstepUpdate st nowA sess sub s.store
      { s with store := r.1, procA := r.2 }
    | .finished _ => s
  else
    match s.procB with
    | .ready => { s with procB := rstepSelect st wB nowB s.store }
    | .selected sess sub =>
      let r := rstepUpdate st nowB sess sub s.store
      { s with store := r.1, procB := r.2 }
    | .finished _ => s

/-- Run a schedule of atomic store accesses for the two requests. -/
def runRace (st : ModelSettings) (wA wB : TokenWire) (nowA nowB : Nat)
    (store : List Session) (sched : List Bool) : RaceState :=
  sched.foldl (raceStep st wA wB nowA nowB) ⟨store, .ready, .ready⟩

/-- The session table holding the not-yet-rotated token of `c1Tok`. -/
def c3Store : List Session := [⟨0, "user_1", hash_token (.tok c1Tok), "d", 100, 100⟩]

/-- C3: the race is real.  Under the interleaving SELECT-A, SELECT-B,
UPDATE-A, UPDATE-B both requests presenting the identical not-yet-rotated
refresh token finish with 200 and a freshly minted access token — not
"exactly one succeeds" — because the lookup-and-rotate is two separate
store accesses with no lock or hash-keyed conditional update.  Under the
serial schedule the second request fails with 401 as the spec expects. -/
theorem concurrent_refresh_double_success :
    (runRace c1S (.tok c1Tok) (.tok c1Tok) 200 201 c3Store
        [true, false, true, false]).procA =
      .finished (.ok ⟨create_access_token c1S "user_1" 200, "bearer"⟩) ∧
    (runRace c1S (.tok c1Tok) (.tok c1Tok) 200 201 c3Store
        [true, false, true, false]).procB =
      .finished (.ok ⟨create_access_token c1S "user_1" 201, "bearer"⟩) ∧
    (runRace c1S (.tok c1Tok) (.tok c1Tok) 200 201 c3Store
        [true, true, false, false]).procB =
      .finished (.error ⟨401, "invalid token"⟩) :=
  ⟨rfl, rfl, rfl⟩

/-! ## Pagination (src/utils/pagination.py) -/

/-- Normalize one Python slice bound for a list of length `n`: a negative
index counts from the end, and the bound is clamped into `[0, n]`. -/
def pySliceIdx (n : Nat) (i : Int) : Nat :=
  if i < 0 then min ((n : Int) + i).toNat n else min i.toNat n

/-- Python's `items[a:b]`. -/
def pySlice {α} (items : List α) (a b : Int) : List α :=
  (items.take (pySliceIdx items.length b)).drop (pySliceIdx items.length a)

/-- `paginate` (src/utils/pagination.py lines 1-20).  Python ints are
`Int` and `//` is floor division; `page_size = 0` would raise
`ZeroDivisionError` in Python and is outside every caller's domain
(`Page`/page sizes are ≥ 1). -/
def paginate {α} (items : List α) (page page_size : Int) :
    List α × Int × Int :=
  let total_items : Int := items.length
  let total_pages := max 1 ((total_items + page_size - 1).fdiv page_size)
  let actual_page := min page total_pages
  let start := (actual_page - 1) * page_size
  let endIdx := start + page_size
  (pySlice items start endIdx, actual_page, total_pages)

/-- A nonnegative Python slice of width `ps` is drop-then-take. -/
theorem pySlice_nonneg {α} (items : List α) (a ps : Int)
    (ha : 0 ≤ a) (hps : 0 ≤ ps) :
    pySlice items a (a + ps) = (items.drop a.toNat).take ps.toNat := by
  unfold pySlice pySliceIdx
  rw [if_neg (by omega), if_neg (by omega)]
  have h1 : (a + ps).toNat = a.toNat + ps.toNat := by omega
  rw [h1]
  rcases le_total (a.toNat + ps.toNat) items.length with hb | hb
  · rw [min_eq_left hb, min_eq_left (by omega : a.toNat ≤ items.length)]
    rw [List.drop_take]
    congr 1
    omega
  · rw [min_eq_right hb]
    rcases le_total a.toNat items.length with hA | hA
    · rw [min_eq_left hA]
      rw [List.take_length]
      rw [List.take_of_length_le (by simpa using (by omega : items.length - a.toNat ≤ ps.toNat))]
    · rw [min_eq_right hA]
      rw [List.take_length, List.drop_length]
      rw [List.drop_of_length_le hA]
      simp

/-- C9: for `page ≥ 1` and `page_size ≥ 1`, `paginate` returns
`total_pages` equal to `max(1, ceil(len(items)/page_size))` — pinned here
by the ceiling characterization `1 ≤ tp`, `len ≤ tp·ps` and
`(tp-1)·ps < max 1 len` — clamps `actual_page = min(page, total_pages)`
(so a request past the last page yields the last page, not an empty
slice), and returns the sublist of at most `page_size` consecutive
elements starting at `(actual_page-1)·page_size`. -/
theorem paginate_clamping {α} (items : List α) (page page_size : Int)
    (hp : 1 ≤ page) (hs : 1 ≤ page_size) :
    1 ≤ (paginate items page page_size).2.2 ∧
    (items.length : Int) ≤ (paginate items page page_size).2.2 * page_size ∧
    ((paginate items page page_size).2.2 - 1) * page_size <
      max 1 (items.length : Int) ∧
    (paginate items page page_size).2.1 =
      min page (paginate items page page_size).2.2 ∧
    (paginate items page page_size).1 =
      (items.drop ((((paginate items page page_size).2.1 - 1) *
        page_size).toNat)).take page_size.toNat ∧
    (paginate items page page_size).1.length ≤ page_size.toNat := by
  have hps0 : (0 : Int) < page_size := by omega
  have hpag : paginate items page page_size =
      (pySlice items
         ((min page (max 1 (((items.length : Int) + page_size - 1).fdiv page_size)) - 1)
            * page_size)
         ((min page (max 1 (((items.length : Int) + page_size - 1).fdiv page_size)) - 1)
            * page_size + page_size),
       min page (max 1 (((items.length : Int) + page_size - 1).fdiv page_size)),
       max 1 (((items.length : Int) + page_size - 1).fdiv page_size)) := rfl
  rw [hpag]
  have hq' : ((items.length : Int) + page_size - 1).fdiv page_size =
      ((items.length : Int) + page_size - 1) / page_size :=
    Int.fdiv_eq_ediv _ (le_of_lt hps0)
  have hadd := Int.ediv_add_emod ((items.length : Int) + page_size - 1) page_size
  have hr0 := Int.emod_nonneg ((items.length : Int) + page_size - 1)
    (by omega : page_size ≠ 0)
  have hrlt := Int.emod_lt_of_pos ((items.length : Int) + page_size - 1) hps0
  have hq1 : (items.length : Int) ≤
      page_size * (((items.length : Int) + page_size - 1).fdiv page_size) := by
    rw [hq']
    linarith
  have c1 : (1 : Int) ≤
      max 1 (((items.length : Int) + page_size - 1).fdiv page_size) :=
    le_max_left _ _
  have c2 : (items.length : Int) ≤
      max 1 (((items.length : Int) + page_size - 1).fdiv page_size) * page_size := by
    have hmul : page_size * (((items.length : Int) + page_size - 1).fdiv page_size) ≤
        page_size * max 1 (((items.length : Int) + page_size - 1).fdiv page_size) :=
      mul_le_mul_of_nonneg_left (le_max_right _ _) (by omega)
    have hcomm : max 1 (((items.length : Int) + page_size - 1).fdiv page_size) *
        page_size =
        page_size * max 1 (((items.length : Int) + page_size - 1).fdiv page_size) :=
      mul_comm _ _
    linarith
  have c3 : (max 1 (((items.length : Int) + page_size - 1).fdiv page_size) - 1) *
      page_size < max 1 (items.length : Int) := by
    rcases le_or_lt (((items.length : Int) + page_size - 1).fdiv page_size) 1 with h1 | h1
    · rw [max_eq_left h1]
      have hzero : ((1 : Int) - 1) * page_size = 0 := by ring
      rw [hzero]
      exact lt_of_lt_of_le one_pos (le_max_left _ _)
    · rw [max_eq_right (le_of_lt h1)]
      have hq2 : ((((items.length : Int) + page_size - 1).fdiv page_size) - 1) *
          page_size < (items.length : Int) := by
        rw [hq']
        have hexpand : ((((items.length : Int) + page_size - 1) / page_size) - 1) *
            page_size =
            page_size * (((items.length : Int) + page_size - 1) / page_size) -
              page_size := by ring
        rw [hexpand]
        linarith
      exact lt_of_lt_of_le hq2 (le_max_right _ _)
  have hstart0 : 0 ≤
      (min page (max 1 (((items.length : Int) + page_size - 1).fdiv page_size)) - 1) *
        page_size := by
    have hactual : 1 ≤
        min page (max 1 (((items.length : Int) + page_size - 1).fdiv page_size)) :=
      le_min hp c1
    exact mul_nonneg (by omega) (by omega)
  have c5 := pySlice_nonneg items
    ((min page (max 1 (((items.length : Int) + page_size - 1).fdiv page_size)) - 1) *
      page_size) page_size hstart0 (by omega)
  refine ⟨c1, c2, c3, rfl, c5, ?_⟩
  rw [c5]
  exact List.length_take_le _ _

/-- C9 witness: page 5 of a 3-element list at page size 2 is clamped to
the last page. -/
theorem paginate_clamping_witness :
    1 ≤ (paginate ([10, 20, 30] : List Nat) 5 2).2.2 ∧
    ((([10, 20, 30] : List Nat).length : Int)) ≤
      (paginate ([10, 20, 30] : List Nat) 5 2).2.2 * 2 ∧
    ((paginate ([10, 20, 30] : List Nat) 5 2).2.2 - 1) * 2 <
      max 1 ((([10, 20, 30] : List Nat).length : Int)) ∧
    (paginate ([10, 20, 30] : List Nat) 5 2).2.1 =
      min 5 (paginate ([10, 20, 30] : List Nat) 5 2).2.2 ∧
    (paginate ([10, 20, 30] : List Nat) 5 2).1 =
      (([10, 20, 30] : List Nat).drop
        ((((paginate ([10, 20, 30] : List Nat) 5 2).2.1 - 1) * 2).toNat)).take
        (2 : Int).toNat ∧
    (paginate ([10, 20, 30] : List Nat) 5 2).1.length ≤ (2 : Int).toNat :=
  paginate_clamping [10, 20, 30] 5 2 (by decide) (by decide)

/-! ## Allowlist SET-clause building (src/utils/query.py) -/

/-- The loop body of `build_set_clause`: walk `update_fields` in
insertion order, keeping only fields present in `column_map` and emitting
`"<column> = %(<field>)s"` with the hard-coded column name. -/
def build_set_parts {α} : List (String × α) → List (String × String) →
    List String × List (String × α)
  | [], _ => ([], [])
  | (field_name, value) :: rest, column_map =>
    let r := build_set_parts rest column_map
    match column_map.find? (fun q => q.1 = field_name) with
    | some q =>
      ((q.2 ++ " = %(" ++ field_name ++ ")s") :: r.1, (field_name, value) :: r.2)
    | none => r

/-- `build_set_clause` (src/utils/query.py lines 4-39): join the kept
parts with ", " and return them with the params dict.  The `dict` /
`Mapping` arguments are modelled as association lists in insertion
order. -/
def build_set_clause {α} (update_fields : List (String × α))
    (column_map : List (String × String)) : String × List (String × α) :=
  (String.intercalate ", " (build_set_parts update_fields column_map).1,
   (build_set_parts update_fields column_map).2)

/-- Structure of the loop output: every emitted part comes from an
allowlist entry, and every kept param is an allowlisted field of the
input. -/
theorem build_set_parts_spec {α} (cm : List (String × String)) :
    ∀ (uf : List (String × α)),
      ∃ qs : List (String × String),
        (∀ q ∈ qs, q ∈ cm) ∧
        (build_set_parts uf cm).1 =
          qs.map (fun q => q.2 ++ " = %(" ++ q.1 ++ ")s") ∧
        (∀ p ∈ (build_set_parts uf cm).2,
          (∃ q ∈ cm, q.1 = p.1) ∧ p ∈ uf) := by
  intro uf
  induction uf with
  | nil =>
    exact ⟨[], by simp, by simp [build_set_parts], by simp [build_set_parts]⟩
  | cons hd tl ih =>
    obtain ⟨f, v⟩ := hd
    obtain ⟨qs, hqs, hparts, hparams⟩ := ih
    cases hf : cm.find? (fun q => q.1 = f) with
    | some q =>
      have hq1 : q.1 = f := by simpa using List.find?_some hf
      refine ⟨q :: qs, ?_, ?_, ?_⟩
      · intro q' hq'
        rcases List.mem_cons.mp hq' with h | h
        · subst h; exact List.mem_of_find?_eq_some hf
        · exact hqs q' h
      · simp only [build_set_parts, hf, List.map_cons]
        rw [hparts, hq1]
      · simp only [build_set_parts, hf]
        intro p hp
        rcases List.mem_cons.mp hp with h | h
        · subst h
          exact ⟨⟨q, List.mem_of_find?_eq_some hf, hq1⟩, List.mem_cons_self _ _⟩
        · obtain ⟨he, hm⟩ := hparams p h
          exact ⟨he, List.mem_cons_of_mem _ hm⟩
    | none =>
      refine ⟨qs, hqs, ?_, ?_⟩
      · simp only [build_set_parts, hf]
        exact hparts
      · simp only [build_set_parts, hf]
        intro p hp
        obtain ⟨he, hm⟩ := hparams p hp
        exact ⟨he, List.mem_cons_of_mem _ hm⟩

/-- C10: the SET clause emitted by `build_set_clause` is the ", "-join of
parts whose column names are drawn exclusively from `column_map`'s values
(with the placeholder naming the allowlisted key), the params keys are a
subset of `column_map`'s keys, every param is a field of the request, and
any request field absent from the allowlist is silently dropped — so no
request-supplied field name reaches the SQL string. -/
theorem build_set_clause_allowlist {α} (update_fields : List (String × α))
    (column_map : List (String × String)) :
    ∃ qs : List (String × String),
      (∀ q ∈ qs, q ∈ column_map) ∧
      (build_set_clause update_fields column_map).1 =
        String.intercalate ", "
          (qs.map (fun q => q.2 ++ " = %(" ++ q.1 ++ ")s")) ∧
      (∀ p ∈ (build_set_clause update_fields column_map).2,
        (∃ q ∈ column_map, q.1 = p.1) ∧ p ∈ update_fields) ∧
      (∀ p ∈ update_fields,
        (column_map.find? (fun q => q.1 = p.1)).isSome = false →
        p ∉ (build_set_clause update_fields column_map).2) := by
  obtain ⟨qs, hqs, hparts, hparams⟩ := build_set_parts_spec column_map update_fields
  refine ⟨qs, hqs, ?_, ?_, ?_⟩
  · show String.intercalate ", " (build_set_parts update_fields column_map).1 = _
    rw [hparts]
  · exact hparams
  · intro p hp hfalse hmem
    obtain ⟨⟨q, hq, hqe⟩, -⟩ := hparams p hmem
    cases hf2 : column_map.find? (fun q' => q'.1 = p.1) with
    | none =>
      have := List.find?_eq_none.mp hf2 q hq
      simp [hqe] at this
    | some _ => simp [hf2] at hfalse

/-- C10 witness: the docstring example — `role` is not in the allowlist
and is silently dropped. -/
theorem build_set_clause_allowlist_witness :
    ∃ qs : List (String × String),
      (∀ q ∈ qs, q ∈ [("title", "title"), ("content", "content")]) ∧
      (build_set_clause [("title", "Hello"), ("role", "admin")]
          [("title", "title"), ("content", "content")]).1 =
        String.intercalate ", "
          (qs.map (fun q => q.2 ++ " = %(" ++ q.1 ++ ")s")) ∧
      (∀ p ∈ (build_set_clause [("title", "Hello"), ("role", "admin")]
          [("title", "title"), ("content", "content")]).2,
        (∃ q ∈ [("title", "title"), ("content", "content")], q.1 = p.1) ∧
          p ∈ [("title", "Hello"), ("role", "admin")]) ∧
      (∀ p ∈ [("title", "Hello"), ("role", "admin")],
        ([("title", "title"), ("content", "content")].find?
          (fun q => q.1 = p.1)).isSome = false →
        p ∉ (build_set_clause [("title", "Hello"), ("role", "admin")]
          [("title", "title"), ("content", "content")]).2) :=
  build_set_clause_allowlist [("title", "Hello"), ("role", "admin")]
    [("title", "title"), ("content", "content")]
